import Mathlib

/-!
Verification development for the postsolve stack of the HiGHS presolver
(`src/presolve/HighsPostsolveStack.h`).

The header under analysis defines the class `HighsPostsolveStack`: nine
reduction-descriptor structs, a discriminator enum, recording operations that
translate reduced-space indices to original-space indices and push descriptors
plus side payloads onto a packed value stack, and the replay engine `undo` /
`undoUntil` that expands a reduced solution and basis to the original index
space and then replays the record in reverse.

Modelling conventions:
* C++ `double` is modelled by `HDouble`, a rational value or one of the
  three non-finite IEEE values, so that finiteness assertions are expressible.
* `HighsDataStack` (from `util/HighsDataStack.h`, which is not part of the
  analysed sources) is modelled from the spec, section 4.A: a LIFO store of
  typed items with a read cursor; `resetPosition` rewinds the cursor to the
  top of the stack; each pop reads the next item below the cursor.
* `HighsBasisStatus` (from `lp_data/HConst.h`, not part of the analysed
  sources) is modelled from the spec as the closed set
  {BASIC, LOWER, UPPER, ZERO, NONBASIC}.
* The out-of-line bodies of the per-descriptor `undo()` member functions are
  declared but not defined in the analysed header; the replay engine is
  therefore parameterised over them (`UndoImpl`).  All theorems about the
  engine hold for every choice of those bodies.
* C++ `assert` in the recording operations is modelled by an `Option` result:
  `none` is an assertion failure.  The asserts inside the replay preamble
  merely restate the index-map invariant (`origColIndex[i] >= i`); they are
  carried as hypotheses of the theorems that need them.
* Vector reads and writes mirror the source: `List.getD`/`List.set`; a
  `std::vector::resize` is `resizeList`, padding with the value-initialised
  default of the element type.
-/

namespace HighsPostsolve

/-- Model of a C++ `double`: a finite rational or a non-finite IEEE value. -/
inductive HDouble where
  | finite (val : ℚ)
  | posInf
  | negInf
  | nan
deriving DecidableEq, Repr

/-- Model of `std::isfinite`. -/
def HDouble.isfinite : HDouble → Bool
  | .finite _ => true
  | _ => false

/-- Model of the IEEE `<` comparison on doubles (`NaN` compares false). -/
def HDouble.lt : HDouble → HDouble → Bool
  | .finite a, .finite b => a < b
  | .finite _, .posInf => true
  | .negInf, .finite _ => true
  | .negInf, .posInf => true
  | _, _ => false

/-- Model of the IEEE `>` comparison on doubles. -/
def HDouble.gt (a b : HDouble) : Bool := HDouble.lt b a

/-- `HighsPostsolveStack::RowType`. -/
inductive RowType where
  | Geq
  | Leq
  | Eq
deriving DecidableEq, Repr

/-- Modelled from the spec: `HighsBasisStatus` lives in `lp_data/HConst.h`,
which is not among the analysed sources; the spec gives the closed status set
{BASIC, LOWER, UPPER, ZERO, NONBASIC}.  `LOWER` is the value-initialised
default. -/
inductive HighsBasisStatus where
  | LOWER
  | BASIC
  | UPPER
  | ZERO
  | NONBASIC
deriving DecidableEq, Repr

/-- A row or column nonzero list: `(original index, coefficient)` pairs,
modelling `std::vector<std::pair<int, double>>`. -/
abbrev Nonzeros := List (Nat × HDouble)

/-- Descriptor struct `FreeColSubstitution`. -/
structure FreeColSubstitution where
  rhs : HDouble
  colCost : HDouble
  row : Nat
  col : Nat
  rowType : RowType
deriving DecidableEq, Repr

/-- Descriptor struct `DoubletonEquation`. -/
structure DoubletonEquation where
  coef : HDouble
  coefSubst : HDouble
  rhs : HDouble
  substLower : HDouble
  substUpper : HDouble
  substCost : HDouble
  row : Nat
  colSubst : Nat
  col : Nat
  lowerTightened : Bool
  upperTightened : Bool
deriving DecidableEq, Repr

/-- Descriptor struct `EqualityRowAddition`. -/
structure EqualityRowAddition where
  row : Nat
  addedEqRow : Nat
  eqRowScale : HDouble
deriving DecidableEq, Repr

/-- Descriptor struct `ForcingColumn` (declared in the header; it has no
discriminator tag and no recording operation). -/
structure ForcingColumn where
  colCost : HDouble
  col : Nat
  atInfiniteUpper : Bool
deriving DecidableEq, Repr

/-- Descriptor struct `SingletonRow`. -/
structure SingletonRow where
  coef : HDouble
  row : Nat
  col : Nat
  colLowerTightened : Bool
  colUpperTightened : Bool
deriving DecidableEq, Repr

/-- Descriptor struct `FixedCol` (column fixed to lower or upper bound, or
removed as a fixed column). -/
structure FixedCol where
  fixValue : HDouble
  colCost : HDouble
  col : Nat
  fixType : HighsBasisStatus
deriving DecidableEq, Repr

/-- Descriptor struct `RedundantRow`. -/
structure RedundantRow where
  row : Nat
deriving DecidableEq, Repr

/-- Descriptor struct `ForcingRow`. -/
structure ForcingRow where
  side : HDouble
  row : Nat
  rowType : RowType
deriving DecidableEq, Repr

/-- Descriptor struct `DuplicateRow`.  Field order matches the source:
`{duplicateRowScale, duplicateRow, row, rowLowerTightened, rowUpperTightened}`. -/
structure DuplicateRow where
  duplicateRowScale : HDouble
  duplicateRow : Nat
  row : Nat
  rowLowerTightened : Bool
  rowUpperTightened : Bool
deriving DecidableEq, Repr

/-- Descriptor struct `DuplicateColumn`. -/
structure DuplicateColumn where
  colScale : HDouble
  colLower : HDouble
  colUpper : HDouble
  duplicateColLower : HDouble
  duplicateColUpper : HDouble
  col : Nat
  duplicateCol : Nat
  colIntegral : Bool
  duplicateColIntegral : Bool
deriving DecidableEq, Repr

/-- The discriminator enum `ReductionType`. -/
inductive ReductionType where
  | kFreeColSubstitution
  | kDoubletonEquation
  | kEqualityRowAddition
  | kSingletonRow
  | kFixedCol
  | kRedundantRow
  | kForcingRow
  | kDuplicateRow
  | kDuplicateColumn
deriving DecidableEq, Repr

/-- A typed item held by the packed value stack: one of the nine descriptor
structs, or a variable-length nonzero list. -/
inductive StackItem where
  | freeColSub (d : FreeColSubstitution)
  | doubletonEq (d : DoubletonEquation)
  | eqRowAdd (d : EqualityRowAddition)
  | singletonR (d : SingletonRow)
  | fixedC (d : FixedCol)
  | redundantR (d : RedundantRow)
  | forcingR (d : ForcingRow)
  | duplicateR (d : DuplicateRow)
  | duplicateC (d : DuplicateColumn)
  | nonzeros (v : Nonzeros)
deriving DecidableEq, Repr

/-- Modelled from the spec: `HighsDataStack` (`util/HighsDataStack.h`) is not
among the analysed sources.  Spec section 4.A: a LIFO store; `push` adds an
item on top; `resetPosition` rewinds the read cursor to the top of the stack;
each pop reads the next item below the cursor.  `data` keeps the most recently
pushed item at the head; `position` counts the items already consumed from the
top by pops since the last `resetPosition`. -/
structure HighsDataStack where
  data : List StackItem
  position : Nat
deriving DecidableEq, Repr

/-- Push an item on top of the value stack. -/
def HighsDataStack.push (s : HighsDataStack) (item : StackItem) : HighsDataStack :=
  { data := item :: s.data, position := s.position }

/-- Rewind the read cursor to the top of the stack (spec section 4.A). -/
def HighsDataStack.resetPosition (s : HighsDataStack) : HighsDataStack :=
  { data := s.data, position := 0 }

/-- Pop the next item below the read cursor.  The C++ `pop` is typed and an
ill-typed pop is a programming error; callers of this model match on the
returned item and treat a mismatch as the error case `none`. -/
def HighsDataStack.popItem (s : HighsDataStack) : Option (StackItem × HighsDataStack) :=
  match s.data.get? s.position with
  | some item => some (item, { data := s.data, position := s.position + 1 })
  | none => none

/-- `HighsSolution` (from `lp_data/HStruct.h`): the mutable solution object. -/
structure HighsSolution where
  col_value : List HDouble
  row_value : List HDouble
  col_dual : List HDouble
  row_dual : List HDouble
deriving DecidableEq, Repr

/-- `HighsBasis`: the mutable basis object. -/
structure HighsBasis where
  col_status : List HighsBasisStatus
  row_status : List HighsBasisStatus
deriving DecidableEq, Repr

/-- The state of a `HighsPostsolveStack` object: the packed value stack, the
record of discriminator tags, the two index maps, the two reusable scratch
buffers, and the original dimensions. -/
structure HighsPostsolveStack where
  reductionValues : HighsDataStack
  reductions : List ReductionType
  origColIndex : List Nat
  origRowIndex : List Nat
  rowValues : Nonzeros
  colValues : Nonzeros
  origNumCol : Nat
  origNumRow : Nat
deriving DecidableEq, Repr

/-- `numReductions()`. -/
def HighsPostsolveStack.numReductions (s : HighsPostsolveStack) : Nat :=
  s.reductions.length

/-- Recording operation `freeColSubstitution`: map the row vector through
`origColIndex` and the column vector through `origRowIndex`, push the
descriptor, then the row nonzeros, then the column nonzeros, and append the
tag. -/
def HighsPostsolveStack.freeColSubstitution (s : HighsPostsolveStack)
    (row col : Nat) (rhs colCost : HDouble) (rowType : RowType)
    (rowVec colVec : Nonzeros) : HighsPostsolveStack :=
  let rowValues : Nonzeros := rowVec.map fun p => (s.origColIndex.getD p.1 0, p.2)
  let colValues : Nonzeros := colVec.map fun p => (s.origRowIndex.getD p.1 0, p.2)
  { s with
    reductionValues :=
      ((s.reductionValues.push
          (.freeColSub ⟨rhs, colCost, s.origRowIndex.getD row 0,
                        s.origColIndex.getD col 0, rowType⟩)).push
        (.nonzeros rowValues)).push (.nonzeros colValues)
    rowValues := rowValues
    colValues := colValues
    reductions := s.reductions ++ [ReductionType.kFreeColSubstitution] }

/-- Recording operation `doubletonEquation`. -/
def HighsPostsolveStack.doubletonEquation (s : HighsPostsolveStack)
    (row colSubst col : Nat) (coefSubst coef rhs substLower substUpper
      oldLower oldUpper newLower newUpper substCost : HDouble)
    (colVec : Nonzeros) : HighsPostsolveStack :=
  let colValues : Nonzeros := colVec.map fun p => (s.origRowIndex.getD p.1 0, p.2)
  { s with
    reductionValues :=
      (s.reductionValues.push
          (.doubletonEq ⟨coef, coefSubst, rhs, substLower, substUpper, substCost,
                         s.origRowIndex.getD row 0, s.origColIndex.getD colSubst 0,
                         s.origColIndex.getD col 0,
                         HDouble.lt oldLower newLower,
                         HDouble.gt oldUpper newUpper⟩)).push
        (.nonzeros colValues)
    colValues := colValues
    reductions := s.reductions ++ [ReductionType.kDoubletonEquation] }

/-- Recording operation `equalityRowAddition`. -/
def HighsPostsolveStack.equalityRowAddition (s : HighsPostsolveStack)
    (row addedEqRow : Nat) (eqRowScale : HDouble) : HighsPostsolveStack :=
  { s with
    reductionValues :=
      s.reductionValues.push
        (.eqRowAdd ⟨s.origRowIndex.getD row 0, s.origRowIndex.getD addedEqRow 0,
                    eqRowScale⟩)
    reductions := s.reductions ++ [ReductionType.kEqualityRowAddition] }

/-- Recording operation `singletonRow`. -/
def HighsPostsolveStack.singletonRow (s : HighsPostsolveStack)
    (row col : Nat) (coef : HDouble)
    (tightenedColLower tightenedColUpper : Bool) : HighsPostsolveStack :=
  { s with
    reductionValues :=
      s.reductionValues.push
        (.singletonR ⟨coef, s.origRowIndex.getD row 0, s.origColIndex.getD col 0,
                      tightenedColLower, tightenedColUpper⟩)
    reductions := s.reductions ++ [ReductionType.kSingletonRow] }

/-- Recording operation `fixedColAtLower`.  The source asserts
`std::isfinite(fixValue)`; `none` models the assertion failure. -/
def HighsPostsolveStack.fixedColAtLower (s : HighsPostsolveStack)
    (col : Nat) (fixValue colCost : HDouble)
    (colVec : Nonzeros) : Option HighsPostsolveStack :=
  if fixValue.isfinite then
    let colValues : Nonzeros := colVec.map fun p => (s.origRowIndex.getD p.1 0, p.2)
    some { s with
      reductionValues :=
        (s.reductionValues.push
            (.fixedC ⟨fixValue, colCost, s.origColIndex.getD col 0,
                      HighsBasisStatus.LOWER⟩)).push (.nonzeros colValues)
      colValues := colValues
      reductions := s.reductions ++ [ReductionType.kFixedCol] }
  else none

/-- Recording operation `fixedColAtUpper`. -/
def HighsPostsolveStack.fixedColAtUpper (s : HighsPostsolveStack)
    (col : Nat) (fixValue colCost : HDouble)
    (colVec : Nonzeros) : Option HighsPostsolveStack :=
  if fixValue.isfinite then
    let colValues : Nonzeros := colVec.map fun p => (s.origRowIndex.getD p.1 0, p.2)
    some { s with
      reductionValues :=
        (s.reductionValues.push
            (.fixedC ⟨fixValue, colCost, s.origColIndex.getD col 0,
                      HighsBasisStatus.UPPER⟩)).push (.nonzeros colValues)
      colValues := colValues
      reductions := s.reductions ++ [ReductionType.kFixedCol] }
  else none

/-- Recording operation `removedFixedCol`. -/
def HighsPostsolveStack.removedFixedCol (s : HighsPostsolveStack)
    (col : Nat) (fixValue colCost : HDouble)
    (colVec : Nonzeros) : Option HighsPostsolveStack :=
  if fixValue.isfinite then
    let colValues : Nonzeros := colVec.map fun p => (s.origRowIndex.getD p.1 0, p.2)
    some { s with
      reductionValues :=
        (s.reductionValues.push
            (.fixedC ⟨fixValue, colCost, s.origColIndex.getD col 0,
                      HighsBasisStatus.NONBASIC⟩)).push (.nonzeros colValues)
      colValues := colValues
      reductions := s.reductions ++ [ReductionType.kFixedCol] }
  else none

/-- Recording operation `redundantRow`.  Note: the source stores the passed
row index unchanged, without translating through `origRowIndex`. -/
def HighsPostsolveStack.redundantRow (s : HighsPostsolveStack)
    (row : Nat) : HighsPostsolveStack :=
  { s with
    reductionValues := s.reductionValues.push (.redundantR ⟨row⟩)
    reductions := s.reductions ++ [ReductionType.kRedundantRow] }

/-- Recording operation `forcingRow`. -/
def HighsPostsolveStack.forcingRow (s : HighsPostsolveStack)
    (row : Nat) (rowVec : Nonzeros) (side : HDouble)
    (rowType : RowType) : HighsPostsolveStack :=
  let rowValues : Nonzeros := rowVec.map fun p => (s.origColIndex.getD p.1 0, p.2)
  { s with
    reductionValues :=
      (s.reductionValues.push
          (.forcingR ⟨side, s.origRowIndex.getD row 0, rowType⟩)).push
        (.nonzeros rowValues)
    rowValues := rowValues
    reductions := s.reductions ++ [ReductionType.kForcingRow] }

/-- Recording operation `duplicateRow`.  The parameter order follows the
source (`rowUpperTightened` before `rowLowerTightened`); the descriptor is
built positionally exactly as the source's aggregate literal
`{duplicateRowScale, origRowIndex[duplicateRow], origRowIndex[row],
rowLowerTightened, rowUpperTightened}`. -/
def HighsPostsolveStack.duplicateRow (s : HighsPostsolveStack)
    (row : Nat) (rowUpperTightened rowLowerTightened : Bool)
    (duplicateRow : Nat) (duplicateRowScale : HDouble) : HighsPostsolveStack :=
  { s with
    reductionValues :=
      s.reductionValues.push
        (.duplicateR ⟨duplicateRowScale, s.origRowIndex.getD duplicateRow 0,
                      s.origRowIndex.getD row 0, rowLowerTightened,
                      rowUpperTightened⟩)
    reductions := s.reductions ++ [ReductionType.kDuplicateRow] }

/-- Recording operation `duplicateColumn`. -/
def HighsPostsolveStack.duplicateColumn (s : HighsPostsolveStack)
    (colScale colLower colUpper duplicateColLower duplicateColUpper : HDouble)
    (col duplicateCol : Nat)
    (colIntegral duplicateColIntegral : Bool) : HighsPostsolveStack :=
  { s with
    reductionValues :=
      s.reductionValues.push
        (.duplicateC ⟨colScale, colLower, colUpper, duplicateColLower,
                      duplicateColUpper, s.origColIndex.getD col 0,
                      s.origColIndex.getD duplicateCol 0, colIntegral,
                      duplicateColIntegral⟩)
    reductions := s.reductions ++ [ReductionType.kDuplicateColumn] }

/-- The per-descriptor `undo()` member functions are declared in the header
but their bodies are defined out of line and are not part of the analysed
sources; the replay engine is parameterised over them.  Each field has the
signature of the corresponding declaration (mutation of `solution` and `basis`
by reference becomes returning the pair). -/
structure UndoImpl where
  freeColSub : FreeColSubstitution → Nonzeros → Nonzeros →
    HighsSolution → HighsBasis → HighsSolution × HighsBasis
  doubletonEq : DoubletonEquation → Nonzeros →
    HighsSolution → HighsBasis → HighsSolution × HighsBasis
  eqRowAdd : EqualityRowAddition →
    HighsSolution → HighsBasis → HighsSolution × HighsBasis
  singletonR : SingletonRow →
    HighsSolution → HighsBasis → HighsSolution × HighsBasis
  fixedC : FixedCol → Nonzeros →
    HighsSolution → HighsBasis → HighsSolution × HighsBasis
  redundantR : RedundantRow →
    HighsSolution → HighsBasis → HighsSolution × HighsBasis
  forcingR : ForcingRow → Nonzeros →
    HighsSolution → HighsBasis → HighsSolution × HighsBasis
  duplicateR : DuplicateRow →
    HighsSolution → HighsBasis → HighsSolution × HighsBasis
  duplicateC : DuplicateColumn →
    HighsSolution → HighsBasis → HDouble → HighsSolution × HighsBasis

/-- Model of `std::vector::resize(n)`: pad with the value-initialised default
when growing, truncate when shrinking. -/
def resizeList (v : List α) (n : Nat) (d : α) : List α :=
  if v.length ≤ n then v ++ List.replicate (n - v.length) d else v.take n

/-- The in-place lifting loop of the replay preamble:
`for (int i = origIndex.size() - 1; i >= 0; --i) v[origIndex[i]] = v[i];`.
`liftFrom origIndex d n v` runs the loop body for `i = n-1` down to `0`. -/
def liftFrom (origIndex : List Nat) (d : α) : Nat → List α → List α
  | 0, v => v
  | Nat.succ i, v => liftFrom origIndex d i (v.set (origIndex.getD i 0) (v.getD i d))

/-- Expansion of one solution or basis array to the original index space:
resize to the original dimension, then run the in-place lifting loop over the
whole index map. -/
def expandVec (v : List α) (origIndex : List Nat) (n : Nat) (d : α) : List α :=
  liftFrom origIndex d origIndex.length (resizeList v n d)

/-- The shared preamble of `undo` and `undoUntil` after the shape guards:
detect dual postsolve by comparing the `col_dual` length with the (still
reduced) `col_value` length, expand `col_value` and `row_value`, and in dual
mode also expand `col_dual`, `row_dual`, `col_status` and `row_status`. -/
def expandSolutionBasis (s : HighsPostsolveStack) (sol : HighsSolution)
    (b : HighsBasis) : HighsSolution × HighsBasis :=
  let dualPostSolve := sol.col_dual.length == sol.col_value.length
  let cv := expandVec sol.col_value s.origColIndex s.origNumCol (HDouble.finite 0)
  let rv := expandVec sol.row_value s.origRowIndex s.origNumRow (HDouble.finite 0)
  if dualPostSolve then
    (⟨cv, rv,
      expandVec sol.col_dual s.origColIndex s.origNumCol (HDouble.finite 0),
      expandVec sol.row_dual s.origRowIndex s.origNumRow (HDouble.finite 0)⟩,
     ⟨expandVec b.col_status s.origColIndex s.origNumCol HighsBasisStatus.LOWER,
      expandVec b.row_status s.origRowIndex s.origNumRow HighsBasisStatus.LOWER⟩)
  else (⟨cv, rv, sol.col_dual, sol.row_dual⟩, b)

/-- The mutable state threaded through the replay loop: the value stack, the
two reusable scratch buffers, and the solution and basis being lifted. -/
structure ReplayState where
  rv : HighsDataStack
  rowValues : Nonzeros
  colValues : Nonzeros
  solution : HighsSolution
  basis : HighsBasis
deriving DecidableEq, Repr

/-- One iteration of the replay switch: dispatch on the discriminator tag,
pop the payloads in the order written in the source, and delegate to the
descriptor's undo rule.  `none` models the programming-error case of an
ill-typed or empty pop. -/
def applyReduction (impl : UndoImpl) (feastol : HDouble) (tag : ReductionType)
    (st : ReplayState) : Option ReplayState :=
  match tag with
  | .kFreeColSubstitution =>
    match st.rv.popItem with
    | some (.nonzeros cv, rv1) =>
      match rv1.popItem with
      | some (.nonzeros rvls, rv2) =>
        match rv2.popItem with
        | some (.freeColSub d, rv3) =>
          let r := impl.freeColSub d rvls cv st.solution st.basis
          some ⟨rv3, rvls, cv, r.1, r.2⟩
        | _ => none
      | _ => none
    | _ => none
  | .kDoubletonEquation =>
    match st.rv.popItem with
    | some (.nonzeros cv, rv1) =>
      match rv1.popItem with
      | some (.doubletonEq d, rv2) =>
        let r := impl.doubletonEq d cv st.solution st.basis
        some ⟨rv2, st.rowValues, cv, r.1, r.2⟩
      | _ => none
    | _ => none
  | .kEqualityRowAddition =>
    match st.rv.popItem with
    | some (.eqRowAdd d, rv1) =>
      let r := impl.eqRowAdd d st.solution st.basis
      some ⟨rv1, st.rowValues, st.colValues, r.1, r.2⟩
    | _ => none
  | .kSingletonRow =>
    match st.rv.popItem with
    | some (.singletonR d, rv1) =>
      let r := impl.singletonR d st.solution st.basis
      some ⟨rv1, st.rowValues, st.colValues, r.1, r.2⟩
    | _ => none
  | .kFixedCol =>
    match st.rv.popItem with
    | some (.nonzeros cv, rv1) =>
      match rv1.popItem with
      | some (.fixedC d, rv2) =>
        let r := impl.fixedC d cv st.solution st.basis
        some ⟨rv2, st.rowValues, cv, r.1, r.2⟩
      | _ => none
    | _ => none
  | .kRedundantRow =>
    match st.rv.popItem with
    | some (.redundantR d, rv1) =>
      let r := impl.redundantR d st.solution st.basis
      some ⟨rv1, st.rowValues, st.colValues, r.1, r.2⟩
    | _ => none
  | .kForcingRow =>
    match st.rv.popItem with
    | some (.nonzeros rvls, rv1) =>
      match rv1.popItem with
      | some (.forcingR d, rv2) =>
        let r := impl.forcingR d rvls st.solution st.basis
        some ⟨rv2, rvls, st.colValues, r.1, r.2⟩
      | _ => none
    | _ => none
  | .kDuplicateRow =>
    match st.rv.popItem with
    | some (.duplicateR d, rv1) =>
      let r := impl.duplicateR d st.solution st.basis
      some ⟨rv1, st.rowValues, st.colValues, r.1, r.2⟩
    | _ => none
  | .kDuplicateColumn =>
    match st.rv.popItem with
    | some (.duplicateC d, rv1) =>
      let r := impl.duplicateC d st.solution st.basis feastol
      some ⟨rv1, st.rowValues, st.colValues, r.1, r.2⟩
    | _ => none

/-- The replay loop over a list of tags already put into replay order (the
record reversed, i.e. index `size-1` first). -/
def replayLoop (impl : UndoImpl) (feastol : HDouble) :
    List ReductionType → ReplayState → Option ReplayState
  | [], st => some st
  | tag :: rest, st =>
    match applyReduction impl feastol tag st with
    | some st1 => replayLoop impl feastol rest st1
    | none => none

/-- `undo(solution, basis, feastol)`: reset the read cursor, silently return
on a shape mismatch, expand the arrays to the original index space, then
replay the whole record from index `size-1` down to `0`.  `none` models the
programming-error case of a desynchronised stack. -/
def undo (impl : UndoImpl) (s : HighsPostsolveStack) (sol : HighsSolution)
    (b : HighsBasis) (feastol : HDouble) :
    Option (HighsPostsolveStack × HighsSolution × HighsBasis) :=
  let rv0 := s.reductionValues.resetPosition
  if sol.col_value.length ≠ s.origColIndex.length then
    some ({ s with reductionValues := rv0 }, sol, b)
  else if sol.row_value.length ≠ s.origRowIndex.length then
    some ({ s with reductionValues := rv0 }, sol, b)
  else
    let sb := expandSolutionBasis s sol b
    match replayLoop impl feastol s.reductions.reverse
        ⟨rv0, s.rowValues, s.colValues, sb.1, sb.2⟩ with
    | some st =>
      some ({ s with
                reductionValues := st.rv
                rowValues := st.rowValues
                colValues := st.colValues }, st.solution, st.basis)
    | none => none

/-- `undoUntil(solution, basis, feastol, numReductions)`: identical to `undo`
except that the replay loop stops at index `numReductions`, i.e. it processes
exactly the tags `reductions[size-1 .. numReductions]`. -/
def undoUntil (impl : UndoImpl) (s : HighsPostsolveStack) (sol : HighsSolution)
    (b : HighsBasis) (feastol : HDouble) (numReductions : Nat) :
    Option (HighsPostsolveStack × HighsSolution × HighsBasis) :=
  let rv0 := s.reductionValues.resetPosition
  if sol.col_value.length ≠ s.origColIndex.length then
    some ({ s with reductionValues := rv0 }, sol, b)
  else if sol.row_value.length ≠ s.origRowIndex.length then
    some ({ s with reductionValues := rv0 }, sol, b)
  else
    let sb := expandSolutionBasis s sol b
    match replayLoop impl feastol (s.reductions.drop numReductions).reverse
        ⟨rv0, s.rowValues, s.colValues, sb.1, sb.2⟩ with
    | some st =>
      some ({ s with
                reductionValues := st.rv
                rowValues := st.rowValues
                colValues := st.colValues }, st.solution, st.basis)
    | none => none

/-- A concrete choice of per-descriptor undo bodies that leaves the solution
and basis untouched; used to instantiate the engine at concrete inputs. -/
def trivialImpl : UndoImpl where
  freeColSub := fun _ _ _ sol b => (sol, b)
  doubletonEq := fun _ _ sol b => (sol, b)
  eqRowAdd := fun _ sol b => (sol, b)
  singletonR := fun _ sol b => (sol, b)
  fixedC := fun _ _ sol b => (sol, b)
  redundantR := fun _ sol b => (sol, b)
  forcingR := fun _ _ sol b => (sol, b)
  duplicateR := fun _ sol b => (sol, b)
  duplicateC := fun _ sol b _ => (sol, b)

/-- A small concrete postsolve-stack state (identity maps of dimension 2). -/
def baseStack : HighsPostsolveStack :=
  ⟨⟨[], 0⟩, [], [0, 1], [0, 1], [], [], 2, 2⟩

theorem getAt0 (l₁ : List α) (x : α) (l₂ : List α) :
    (l₁ ++ x :: l₂).get? l₁.length = some x := by
  induction l₁ with
  | nil => rfl
  | cons h t ih => simpa using ih

theorem getAt1 (l₁ : List α) (x y : α) (l₂ : List α) :
    (l₁ ++ x :: y :: l₂).get? (l₁.length + 1) = some y := by
  induction l₁ with
  | nil => rfl
  | cons h t ih => simpa using ih

theorem getAt2 (l₁ : List α) (x y z : α) (l₂ : List α) :
    (l₁ ++ x :: y :: z :: l₂).get? (l₁.length + 2) = some z := by
  induction l₁ with
  | nil => rfl
  | cons h t ih => simpa using ih

theorem liftFrom_length (origIndex : List Nat) (d : α) :
    ∀ (n : Nat) (v : List α), (liftFrom origIndex d n v).length = v.length := by
  intro n
  induction n with
  | zero => intro v; rfl
  | succ m ih => intro v; rw [liftFrom, ih]; exact List.length_set v _ _

theorem liftFrom_get?_frame (origIndex : List Nat) (d : α) :
    ∀ (n : Nat) (v : List α) (p : Nat),
      (∀ j, j < n → origIndex.getD j 0 ≠ p) →
      (liftFrom origIndex d n v).get? p = v.get? p := by
  intro n
  induction n with
  | zero => intro v p _; rfl
  | succ m ih =>
    intro v p h
    rw [liftFrom, ih _ _ fun j hj => h j (Nat.lt_succ_of_lt hj)]
    exact List.get?_set_ne _ _ (h m (Nat.lt_succ_self m))

theorem liftFrom_get?_hit (origIndex : List Nat) (d : α) :
    ∀ (n : Nat) (v : List α),
      (∀ b, b < n → ∀ a, a < b → origIndex.getD a 0 < origIndex.getD b 0) →
      (∀ j, j < n → j ≤ origIndex.getD j 0) →
      (∀ j, j < n → origIndex.getD j 0 < v.length) →
      ∀ i, i < n →
        (liftFrom origIndex d n v).get? (origIndex.getD i 0) = v.get? i := by
  intro n
  induction n with
  | zero => intro v _ _ _ i hi; omega
  | succ m ih =>
    intro v hmono hge hlt i hi
    rw [liftFrom]
    by_cases him : i = m
    · subst him
      rw [liftFrom_get?_frame origIndex d i _ _
        fun j hj => Nat.ne_of_lt (hmono i hi j hj)]
      rw [List.get?_set_eq_of_lt _ (hlt i hi)]
      have hil : i < v.length := Nat.lt_of_le_of_lt (hge i hi) (hlt i hi)
      rw [List.getD_eq_getElem v d hil, List.get?_eq_getElem?,
        List.getElem?_eq_getElem hil]
    · have him' : i < m := by omega
      rw [ih _ (fun b hb a ha => hmono b (Nat.lt_succ_of_lt hb) a ha)
        (fun j hj => hge j (Nat.lt_succ_of_lt hj))
        (fun j hj => by rw [List.length_set]; exact hlt j (Nat.lt_succ_of_lt hj))
        i him']
      refine List.get?_set_ne _ _ ?hne
      have : m ≤ origIndex.getD m 0 := hge m (Nat.lt_succ_self m)
      omega

theorem resizeList_length (v : List α) (n : Nat) (d : α) :
    (resizeList v n d).length = n := by
  unfold resizeList
  split
  · rw [List.length_append, List.length_replicate]; omega
  · rw [List.length_take]; omega

theorem resizeList_get? (v : List α) (n : Nat) (d : α) (i : Nat)
    (hv : i < v.length) (hn : i < n) : (resizeList v n d).get? i = v.get? i := by
  unfold resizeList
  split
  · exact List.get?_append hv
  · exact List.get?_take hn

theorem set_getD_self (v : List α) (k : Nat) (d : α) (h : k < v.length) :
    v.set k (v.getD k d) = v := by
  refine List.ext_get?_iff.mpr fun n => ?hn
  by_cases hn : k = n
  · subst hn
    rw [List.get?_set_eq_of_lt _ h, List.getD_eq_getElem v d h,
      List.get?_eq_getElem?, List.getElem?_eq_getElem h]
  · exact List.get?_set_ne _ _ hn

theorem liftFrom_range_id (n : Nat) (d : α) :
    ∀ (m : Nat), m ≤ n → ∀ (v : List α), v.length = n →
      liftFrom (List.range n) d m v = v := by
  intro m
  induction m with
  | zero => intro _ v _; rfl
  | succ k ih =>
    intro hm v hv
    have hk : k < n := by omega
    have hrange : (List.range n).getD k 0 = k := by
      rw [List.getD_eq_getElem _ _ (by simpa using hk), List.getElem_range]
    rw [liftFrom, hrange, set_getD_self v k d (by omega), ih (by omega) v hv]

theorem expandVec_id (v : List α) (n : Nat) (d : α) (h : v.length = n) :
    expandVec v (List.range n) n d = v := by
  unfold expandVec
  have hres : resizeList v n d = v := by
    unfold resizeList
    rw [if_pos (by omega)]
    simp [h]
  rw [hres, List.length_range]
  exact liftFrom_range_id n d n (Nat.le_refl n) v h

theorem popItem0 (done : List StackItem) (x : StackItem) (rest : List StackItem) :
    HighsDataStack.popItem ⟨done ++ x :: rest, done.length⟩ =
      some (x, ⟨done ++ x :: rest, done.length + 1⟩) := by
  unfold HighsDataStack.popItem
  rw [getAt0]

theorem popItem1 (done : List StackItem) (x y : StackItem) (rest : List StackItem) :
    HighsDataStack.popItem ⟨done ++ x :: y :: rest, done.length + 1⟩ =
      some (y, ⟨done ++ x :: y :: rest, done.length + 2⟩) := by
  unfold HighsDataStack.popItem
  rw [getAt1]

theorem popItem2 (done : List StackItem) (x y z : StackItem) (rest : List StackItem) :
    HighsDataStack.popItem ⟨done ++ x :: y :: z :: rest, done.length + 2⟩ =
      some (z, ⟨done ++ x :: y :: z :: rest, done.length + 3⟩) := by
  unfold HighsDataStack.popItem
  rw [getAt2]

/-- Concrete solution with a mismatched `col_value` length relative to
`baseStack` (whose reduced column count is 2). -/
def solShape1 : HighsSolution :=
  ⟨[HDouble.finite 1], [HDouble.finite 2, HDouble.finite 3], [], []⟩

/-- Concrete empty basis. -/
def basisEmpty : HighsBasis := ⟨[], []⟩

/-- Concrete postsolve-stack state with identity index maps of dimension 1
and an empty record. -/
def idStack1 : HighsPostsolveStack := ⟨⟨[], 0⟩, [], [0], [0], [], [], 1, 1⟩

/-- Concrete solution for `idStack1` in dual-postsolve mode whose `row_dual`
has reduced (here: empty) length instead of the original length 1. -/
def solDualBad : HighsSolution :=
  ⟨[HDouble.finite 1], [HDouble.finite 2], [HDouble.finite 3], []⟩

/-- Concrete solution for `idStack1` in dual-postsolve mode with all arrays
already of the original dimensions. -/
def solDualGood : HighsSolution :=
  ⟨[HDouble.finite 1], [HDouble.finite 2], [HDouble.finite 3], [HDouble.finite 4]⟩

/-- Concrete basis of dimension 1. -/
def basisOne : HighsBasis := ⟨[HighsBasisStatus.BASIC], [HighsBasisStatus.BASIC]⟩

/-- C3: if `origColIndex` is strictly increasing with `origColIndex[i] ≥ i`
(and, as the data-model invariant guarantees, maps into the original
dimension) then the in-place expansion (`resize` followed by the reverse
iteration copying slot `i` to slot `origColIndex[i]`) never overwrites a
source slot before reading it: afterwards slot `origColIndex[i]` holds the
value slot `i` held before the call.  The statement is generic in the element
type, so it covers `col_value` with `origColIndex` and `row_value` with
`origRowIndex` alike. -/
theorem expandVec_no_overwrite {α : Type} (v : List α) (origIndex : List Nat)
    (n : Nat) (d : α)
    (hmono : ∀ b, b < origIndex.length → ∀ a, a < b →
      origIndex.getD a 0 < origIndex.getD b 0)
    (hge : ∀ i, i < origIndex.length → i ≤ origIndex.getD i 0)
    (hbound : ∀ i, i < origIndex.length → origIndex.getD i 0 < n)
    (hlen : v.length = origIndex.length)
    (i : Nat) (hi : i < origIndex.length) :
    (expandVec v origIndex n d).get? (origIndex.getD i 0) = v.get? i := by
  unfold expandVec
  rw [liftFrom_get?_hit origIndex d origIndex.length (resizeList v n d) hmono hge
    (fun j hj => by rw [resizeList_length]; exact hbound j hj) i hi]
  exact resizeList_get? v n d i (hlen ▸ hi)
    (Nat.lt_of_le_of_lt (hge i hi) (hbound i hi))

theorem expandVec_no_overwrite_witness :
    (∀ b, b < ([1, 2] : List Nat).length → ∀ a, a < b →
      ([1, 2] : List Nat).getD a 0 < ([1, 2] : List Nat).getD b 0) ∧
    (∀ i, i < ([1, 2] : List Nat).length → i ≤ ([1, 2] : List Nat).getD i 0) ∧
    (∀ i, i < ([1, 2] : List Nat).length → ([1, 2] : List Nat).getD i 0 < 3) ∧
    (expandVec [HDouble.finite 5, HDouble.finite 7] [1, 2] 3
        (HDouble.finite 0)).get? (([1, 2] : List Nat).getD 0 0) =
      some (HDouble.finite 5) := by
  refine ⟨by decide, by decide, by decide, ?hw⟩
  have h := expandVec_no_overwrite [HDouble.finite 5, HDouble.finite 7] [1, 2] 3
    (HDouble.finite 0) (by decide) (by decide) (by decide) rfl 0 (by decide)
  simpa using h

/-- C4: when the reduced solution shape disagrees with the current reduced
dimensions (the lengths of `origColIndex`/`origRowIndex`), both `undo` and
`undoUntil` return immediately, handing back the solution and basis entirely
unchanged — no expansion, no replay, no error (the result is still `some`). -/
theorem undo_shape_mismatch_unchanged (impl : UndoImpl)
    (s : HighsPostsolveStack) (sol : HighsSolution) (b : HighsBasis)
    (feastol : HDouble) (k : Nat)
    (h : sol.col_value.length ≠ s.origColIndex.length ∨
         sol.row_value.length ≠ s.origRowIndex.length) :
    undo impl s sol b feastol =
      some ({ s with reductionValues := s.reductionValues.resetPosition }, sol, b) ∧
    undoUntil impl s sol b feastol k =
      some ({ s with reductionValues := s.reductionValues.resetPosition }, sol, b) := by
  unfold undo undoUntil
  rcases h with h | h
  · rw [if_pos h, if_pos h]
    exact ⟨rfl, rfl⟩
  · by_cases hc : sol.col_value.length = s.origColIndex.length
    · rw [if_neg (not_not_intro hc), if_neg (not_not_intro hc), if_pos h, if_pos h]
      exact ⟨rfl, rfl⟩
    · rw [if_pos hc, if_pos hc]
      exact ⟨rfl, rfl⟩

theorem undo_shape_mismatch_unchanged_witness :
    (solShape1.col_value.length ≠ baseStack.origColIndex.length ∨
     solShape1.row_value.length ≠ baseStack.origRowIndex.length) ∧
    undo trivialImpl baseStack solShape1 basisEmpty (HDouble.finite 0) =
      some ({ baseStack with
                reductionValues := baseStack.reductionValues.resetPosition },
            solShape1, basisEmpty) :=
  ⟨Or.inl (by decide),
   (undo_shape_mismatch_unchanged trivialImpl baseStack solShape1 basisEmpty
     (HDouble.finite 0) 0 (Or.inl (by decide))).1⟩

/-- C10: both `undo` and `undoUntil` call `resetPosition()` before the shape
guards, so even a call rejected for shape mismatch (which leaves the solution
and basis untouched) still rewinds the value stack's read cursor to the top
of the stack (`position = 0` in this model), preserving the stored data. -/
theorem undo_resets_cursor_before_guard (impl : UndoImpl)
    (s : HighsPostsolveStack) (sol : HighsSolution) (b : HighsBasis)
    (feastol : HDouble) (k : Nat)
    (h : sol.col_value.length ≠ s.origColIndex.length ∨
         sol.row_value.length ≠ s.origRowIndex.length) :
    undo impl s sol b feastol =
      some ({ s with reductionValues := ⟨s.reductionValues.data, 0⟩ }, sol, b) ∧
    undoUntil impl s sol b feastol k =
      some ({ s with reductionValues := ⟨s.reductionValues.data, 0⟩ }, sol, b) := by
  unfold undo undoUntil
  rcases h with h | h
  · rw [if_pos h, if_pos h]
    exact ⟨rfl, rfl⟩
  · by_cases hc : sol.col_value.length = s.origColIndex.length
    · rw [if_neg (not_not_intro hc), if_neg (not_not_intro hc), if_pos h, if_pos h]
      exact ⟨rfl, rfl⟩
    · rw [if_pos hc, if_pos hc]
      exact ⟨rfl, rfl⟩

theorem undo_resets_cursor_before_guard_witness :
    (solShape1.col_value.length ≠ baseStack.origColIndex.length ∨
     solShape1.row_value.length ≠ baseStack.origRowIndex.length) ∧
    undoUntil trivialImpl baseStack solShape1 basisEmpty (HDouble.finite 0) 5 =
      some ({ baseStack with
                reductionValues := ⟨baseStack.reductionValues.data, 0⟩ },
            solShape1, basisEmpty) :=
  ⟨Or.inl (by decide),
   (undo_resets_cursor_before_guard trivialImpl baseStack solShape1 basisEmpty
     (HDouble.finite 0) 5 (Or.inl (by decide))).2⟩

/-- C6: the shared preamble of `undo` and `undoUntil` decides dual-postsolve
mode by comparing the `col_dual` length against the `col_value` length while
`col_value` still has its reduced length (the condition below reads the
unexpanded input), and expands `col_dual`, `row_dual`, `col_status` and
`row_status` to the original dimensions exactly when the two lengths agree;
otherwise those four arrays are handed through unchanged and only `col_value`
and `row_value` are expanded. -/
theorem dual_expansion_iff_col_dual_matches (s : HighsPostsolveStack)
    (sol : HighsSolution) (b : HighsBasis) :
    expandSolutionBasis s sol b =
      if sol.col_dual.length = sol.col_value.length then
        (⟨expandVec sol.col_value s.origColIndex s.origNumCol (HDouble.finite 0),
          expandVec sol.row_value s.origRowIndex s.origNumRow (HDouble.finite 0),
          expandVec sol.col_dual s.origColIndex s.origNumCol (HDouble.finite 0),
          expandVec sol.row_dual s.origRowIndex s.origNumRow (HDouble.finite 0)⟩,
         ⟨expandVec b.col_status s.origColIndex s.origNumCol HighsBasisStatus.LOWER,
          expandVec b.row_status s.origRowIndex s.origNumRow HighsBasisStatus.LOWER⟩)
      else
        (⟨expandVec sol.col_value s.origColIndex s.origNumCol (HDouble.finite 0),
          expandVec sol.row_value s.origRowIndex s.origNumRow (HDouble.finite 0),
          sol.col_dual, sol.row_dual⟩, b) := by
  unfold expandSolutionBasis
  by_cases h : sol.col_dual.length = sol.col_value.length
  · simp [h]
  · simp [h]

theorem expandSolutionBasis_reductions_irrel (s : HighsPostsolveStack)
    (X : List ReductionType) (sol : HighsSolution) (b : HighsBasis) :
    expandSolutionBasis { s with reductions := X } sol b =
      expandSolutionBasis s sol b := rfl

theorem undo_preserves_reductions (impl : UndoImpl) (s : HighsPostsolveStack)
    (sol : HighsSolution) (b : HighsBasis) (feastol : HDouble) :
    (undo impl s sol b feastol).map (fun r => r.1.reductions) =
      (undo impl s sol b feastol).map (fun _ => s.reductions) := by
  unfold undo
  by_cases h1 : sol.col_value.length ≠ s.origColIndex.length
  · rw [if_pos h1]
    rfl
  · rw [if_neg h1]
    by_cases h2 : sol.row_value.length ≠ s.origRowIndex.length
    · rw [if_pos h2]
      rfl
    · rw [if_neg h2]
      cases hrep : replayLoop impl feastol s.reductions.reverse
          ⟨s.reductionValues.resetPosition, s.rowValues, s.colValues,
           (expandSolutionBasis s sol b).1, (expandSolutionBasis s sol b).2⟩ with
      | none => simp [hrep]
      | some st => simp [hrep]

/-- C5: `undoUntil` keeps the record of tags intact (`numReductions` is the
same after the call whenever the call produces a result), its behaviour is
exactly that of a full `undo` performed on the same state with the record
truncated to the suffix of indices `≥ k` — i.e. it replays exactly the
records with index `≥ k`, from index `size-1` down to `k` — and at checkpoint
`0` it coincides with `undo` entirely. -/
theorem undoUntil_replays_suffix (impl : UndoImpl) (s : HighsPostsolveStack)
    (sol : HighsSolution) (b : HighsBasis) (feastol : HDouble) (k : Nat) :
    (undoUntil impl s sol b feastol k).map (fun r => r.1.numReductions) =
      (undoUntil impl s sol b feastol k).map (fun _ => s.numReductions) ∧
    undoUntil impl s sol b feastol k =
      (undo impl { s with reductions := s.reductions.drop k } sol b feastol).map
        (fun r => ({ r.1 with reductions := s.reductions }, r.2)) ∧
    undoUntil impl s sol b feastol 0 = undo impl s sol b feastol := by
  have hmain : ∀ (m : Nat),
      undoUntil impl s sol b feastol m =
        (undo impl { s with reductions := s.reductions.drop m } sol b
            feastol).map
          (fun r => ({ r.1 with reductions := s.reductions }, r.2)) := by
    intro m
    unfold undoUntil undo
    dsimp only
    rw [expandSolutionBasis_reductions_irrel s (s.reductions.drop m) sol b]
    by_cases h1 : sol.col_value.length ≠ s.origColIndex.length
    · rw [if_pos h1, if_pos h1]
      rfl
    · rw [if_neg h1, if_neg h1]
      by_cases h2 : sol.row_value.length ≠ s.origRowIndex.length
      · rw [if_pos h2, if_pos h2]
        rfl
      · rw [if_neg h2, if_neg h2]
        cases hrep : replayLoop impl feastol (s.reductions.drop m).reverse
            ⟨s.reductionValues.resetPosition, s.rowValues, s.colValues,
             (expandSolutionBasis s sol b).1,
             (expandSolutionBasis s sol b).2⟩ with
        | none => rfl
        | some st => rfl
  refine ⟨?ha, hmain k, ?hc⟩
  · rw [hmain k]
    cases undo impl { s with reductions := s.reductions.drop k } sol b
        feastol with
    | none => rfl
    | some r => rfl
  · rw [hmain 0, List.drop_zero]
    cases hu : undo impl s sol b feastol with
    | none => rfl
    | some r =>
      have hr := undo_preserves_reductions impl s sol b feastol
      rw [hu] at hr
      simp only [Option.map_some', Option.some.injEq] at hr
      obtain ⟨⟨a1, a2, a3, a4, a5, a6, a7, a8⟩, r2⟩ := r
      simp only at hr
      subst hr
      rfl

/-- C7 counterexample: with an empty record and identity index maps of the
original dimensions, `undo` does NOT always leave the solution unchanged: in
dual-postsolve mode (`col_dual` of reduced = original length) a `row_dual`
of a different length is resized to the original row count.  Concretely, for
`idStack1` (identity maps, dimension 1, no reductions) and `solDualBad`
(whose `row_dual` is empty) the returned solution's `row_dual` is `[0.0]`
although the input's was `[]`. -/
theorem undo_identity_changes_row_dual :
    (undo trivialImpl idStack1 solDualBad basisOne (HDouble.finite 0)).map
        (fun r => r.2.1.row_dual) = some [HDouble.finite 0] ∧
    solDualBad.row_dual = ([] : List HDouble) := by
  constructor
  · rfl
  · rfl

/-- C7 amended: if the reduction record is empty and the index maps are the
identity of the original dimensions, then `undo` leaves the solution and
basis unchanged — provided that, when dual-postsolve mode is active
(`col_dual` as long as `col_value`), the arrays `row_dual`, `col_status` and
`row_status` already have the original dimensions as well (the expansion
resizes them unconditionally in that mode). -/
theorem undo_identity_unchanged (impl : UndoImpl) (s : HighsPostsolveStack)
    (sol : HighsSolution) (b : HighsBasis) (feastol : HDouble)
    (hred : s.reductions = [])
    (hci : s.origColIndex = List.range s.origNumCol)
    (hri : s.origRowIndex = List.range s.origNumRow)
    (hcl : sol.col_value.length = s.origNumCol)
    (hrl : sol.row_value.length = s.origNumRow)
    (hdual : sol.col_dual.length = sol.col_value.length →
      sol.row_dual.length = s.origNumRow ∧
      b.col_status.length = s.origNumCol ∧
      b.row_status.length = s.origNumRow) :
    undo impl s sol b feastol =
      some ({ s with reductionValues := s.reductionValues.resetPosition },
            sol, b) := by
  have hsb : expandSolutionBasis s sol b = (sol, b) := by
    unfold expandSolutionBasis
    by_cases hd : sol.col_dual.length = sol.col_value.length
    · obtain ⟨hrd, hcs, hrs⟩ := hdual hd
      rw [hci, hri]
      simp only [hd, beq_self_eq_true, if_true]
      rw [expandVec_id sol.col_value s.origNumCol _ hcl,
        expandVec_id sol.row_value s.origNumRow _ hrl,
        expandVec_id sol.col_dual s.origNumCol _ (by rw [hd, hcl]),
        expandVec_id sol.row_dual s.origNumRow _ hrd,
        expandVec_id b.col_status s.origNumCol _ hcs,
        expandVec_id b.row_status s.origNumRow _ hrs]
    · have hd' : (sol.col_dual.length == sol.col_value.length) = false := by
        simpa using hd
      rw [hci, hri]
      simp only [hd', Bool.false_eq_true, if_false]
      rw [expandVec_id sol.col_value s.origNumCol _ hcl,
        expandVec_id sol.row_value s.origNumRow _ hrl]
  unfold undo
  rw [if_neg (by rw [hci, List.length_range]; exact not_not_intro hcl),
    if_neg (by rw [hri, List.length_range]; exact not_not_intro hrl),
    hred, hsb]
  rfl

theorem undo_identity_unchanged_witness :
    idStack1.reductions = [] ∧
    idStack1.origColIndex = List.range idStack1.origNumCol ∧
    idStack1.origRowIndex = List.range idStack1.origNumRow ∧
    solDualGood.col_value.length = idStack1.origNumCol ∧
    solDualGood.row_value.length = idStack1.origNumRow ∧
    (solDualGood.col_dual.length = solDualGood.col_value.length →
      solDualGood.row_dual.length = idStack1.origNumRow ∧
      basisOne.col_status.length = idStack1.origNumCol ∧
      basisOne.row_status.length = idStack1.origNumRow) ∧
    undo trivialImpl idStack1 solDualGood basisOne (HDouble.finite 0) =
      some ({ idStack1 with
                reductionValues := idStack1.reductionValues.resetPosition },
            solDualGood, basisOne) :=
  ⟨rfl, by decide, by decide, rfl, rfl, fun _ => ⟨rfl, rfl, rfl⟩,
   undo_identity_unchanged trivialImpl idStack1 solDualGood basisOne
     (HDouble.finite 0) rfl (by decide) (by decide) rfl rfl
     (fun _ => ⟨rfl, rfl, rfl⟩)⟩

theorem applyReduction_freeColSub_pops (impl : UndoImpl) (feastol : HDouble)
    (done : List StackItem) (cv rvls : Nonzeros) (d : FreeColSubstitution)
    (rest : List StackItem) (X Y : Nonzeros) (sol : HighsSolution)
    (b : HighsBasis) :
    applyReduction impl feastol .kFreeColSubstitution
        ⟨⟨done ++ .nonzeros cv :: .nonzeros rvls :: .freeColSub d :: rest,
          done.length⟩, X, Y, sol, b⟩ =
      some ⟨⟨done ++ .nonzeros cv :: .nonzeros rvls :: .freeColSub d :: rest,
             done.length + 3⟩, rvls, cv,
            (impl.freeColSub d rvls cv sol b).1,
            (impl.freeColSub d rvls cv sol b).2⟩ := by
  simp only [applyReduction, HighsDataStack.popItem, getAt0, getAt1, getAt2]

theorem applyReduction_doubletonEq_pops (impl : UndoImpl) (feastol : HDouble)
    (done : List StackItem) (cv : Nonzeros) (d : DoubletonEquation)
    (rest : List StackItem) (X Y : Nonzeros) (sol : HighsSolution)
    (b : HighsBasis) :
    applyReduction impl feastol .kDoubletonEquation
        ⟨⟨done ++ .nonzeros cv :: .doubletonEq d :: rest, done.length⟩,
         X, Y, sol, b⟩ =
      some ⟨⟨done ++ .nonzeros cv :: .doubletonEq d :: rest, done.length + 2⟩,
            X, cv, (impl.doubletonEq d cv sol b).1,
            (impl.doubletonEq d cv sol b).2⟩ := by
  simp only [applyReduction, HighsDataStack.popItem, getAt0, getAt1]

theorem applyReduction_eqRowAdd_pops (impl : UndoImpl) (feastol : HDouble)
    (done : List StackItem) (d : EqualityRowAddition) (rest : List StackItem)
    (X Y : Nonzeros) (sol : HighsSolution) (b : HighsBasis) :
    applyReduction impl feastol .kEqualityRowAddition
        ⟨⟨done ++ .eqRowAdd d :: rest, done.length⟩, X, Y, sol, b⟩ =
      some ⟨⟨done ++ .eqRowAdd d :: rest, done.length + 1⟩, X, Y,
            (impl.eqRowAdd d sol b).1, (impl.eqRowAdd d sol b).2⟩ := by
  simp only [applyReduction, HighsDataStack.popItem, getAt0]

theorem applyReduction_singletonRow_pops (impl : UndoImpl) (feastol : HDouble)
    (done : List StackItem) (d : SingletonRow) (rest : List StackItem)
    (X Y : Nonzeros) (sol : HighsSolution) (b : HighsBasis) :
    applyReduction impl feastol .kSingletonRow
        ⟨⟨done ++ .singletonR d :: rest, done.length⟩, X, Y, sol, b⟩ =
      some ⟨⟨done ++ .singletonR d :: rest, done.length + 1⟩, X, Y,
            (impl.singletonR d sol b).1, (impl.singletonR d sol b).2⟩ := by
  simp only [applyReduction, HighsDataStack.popItem, getAt0]

theorem applyReduction_fixedCol_pops (impl : UndoImpl) (feastol : HDouble)
    (done : List StackItem) (cv : Nonzeros) (d : FixedCol)
    (rest : List StackItem) (X Y : Nonzeros) (sol : HighsSolution)
    (b : HighsBasis) :
    applyReduction impl feastol .kFixedCol
        ⟨⟨done ++ .nonzeros cv :: .fixedC d :: rest, done.length⟩,
         X, Y, sol, b⟩ =
      some ⟨⟨done ++ .nonzeros cv :: .fixedC d :: rest, done.length + 2⟩,
            X, cv, (impl.fixedC d cv sol b).1, (impl.fixedC d cv sol b).2⟩ := by
  simp only [applyReduction, HighsDataStack.popItem, getAt0, getAt1]

theorem applyReduction_redundantRow_pops (impl : UndoImpl) (feastol : HDouble)
    (done : List StackItem) (d : RedundantRow) (rest : List StackItem)
    (X Y : Nonzeros) (sol : HighsSolution) (b : HighsBasis) :
    applyReduction impl feastol .kRedundantRow
        ⟨⟨done ++ .redundantR d :: rest, done.length⟩, X, Y, sol, b⟩ =
      some ⟨⟨done ++ .redundantR d :: rest, done.length + 1⟩, X, Y,
            (impl.redundantR d sol b).1, (impl.redundantR d sol b).2⟩ := by
  simp only [applyReduction, HighsDataStack.popItem, getAt0]

theorem applyReduction_forcingRow_pops (impl : UndoImpl) (feastol : HDouble)
    (done : List StackItem) (rvls : Nonzeros) (d : ForcingRow)
    (rest : List StackItem) (X Y : Nonzeros) (sol : HighsSolution)
    (b : HighsBasis) :
    applyReduction impl feastol .kForcingRow
        ⟨⟨done ++ .nonzeros rvls :: .forcingR d :: rest, done.length⟩,
         X, Y, sol, b⟩ =
      some ⟨⟨done ++ .nonzeros rvls :: .forcingR d :: rest, done.length + 2⟩,
            rvls, Y, (impl.forcingR d rvls sol b).1,
            (impl.forcingR d rvls sol b).2⟩ := by
  simp only [applyReduction, HighsDataStack.popItem, getAt0, getAt1]

theorem applyReduction_duplicateRow_pops (impl : UndoImpl) (feastol : HDouble)
    (done : List StackItem) (d : DuplicateRow) (rest : List StackItem)
    (X Y : Nonzeros) (sol : HighsSolution) (b : HighsBasis) :
    applyReduction impl feastol .kDuplicateRow
        ⟨⟨done ++ .duplicateR d :: rest, done.length⟩, X, Y, sol, b⟩ =
      some ⟨⟨done ++ .duplicateR d :: rest, done.length + 1⟩, X, Y,
            (impl.duplicateR d sol b).1, (impl.duplicateR d sol b).2⟩ := by
  simp only [applyReduction, HighsDataStack.popItem, getAt0]

theorem applyReduction_duplicateColumn_pops (impl : UndoImpl)
    (feastol : HDouble) (done : List StackItem) (d : DuplicateColumn)
    (rest : List StackItem) (X Y : Nonzeros) (sol : HighsSolution)
    (b : HighsBasis) :
    applyReduction impl feastol .kDuplicateColumn
        ⟨⟨done ++ .duplicateC d :: rest, done.length⟩, X, Y, sol, b⟩ =
      some ⟨⟨done ++ .duplicateC d :: rest, done.length + 1⟩, X, Y,
            (impl.duplicateC d sol b feastol).1,
            (impl.duplicateC d sol b feastol).2⟩ := by
  simp only [applyReduction, HighsDataStack.popItem, getAt0]

/-- C1: each recording operation pushes its descriptor first and its side
payloads after it, and the replay dispatch (the shared switch body of `undo`
and `undoUntil`) pops the value stack in the exact inverse order:
FreeColSubstitution pushes descriptor, row nonzeros, column nonzeros and pops
column nonzeros, row nonzeros, descriptor; DoubletonEquation and FixedCol
(all three recorders) pop column nonzeros then the descriptor; ForcingRow
pops row nonzeros then the descriptor; EqualityRowAddition, SingletonRow,
RedundantRow, DuplicateRow and DuplicateColumn pop only the descriptor.  The
pop statements hold at any cursor position (`done` items already consumed)
and show which popped value lands in which buffer and descriptor slot. -/
theorem undo_pops_inverse_of_push_order :
    (∀ (s : HighsPostsolveStack) (row col : Nat) (rhs colCost : HDouble)
       (rowType : RowType) (rowVec colVec : Nonzeros),
      s.freeColSubstitution row col rhs colCost rowType rowVec colVec =
        { s with
          reductionValues :=
            ⟨.nonzeros (colVec.map fun p => (s.origRowIndex.getD p.1 0, p.2)) ::
             .nonzeros (rowVec.map fun p => (s.origColIndex.getD p.1 0, p.2)) ::
             .freeColSub ⟨rhs, colCost, s.origRowIndex.getD row 0,
                          s.origColIndex.getD col 0, rowType⟩ ::
             s.reductionValues.data,
             s.reductionValues.position⟩
          rowValues := rowVec.map fun p => (s.origColIndex.getD p.1 0, p.2)
          colValues := colVec.map fun p => (s.origRowIndex.getD p.1 0, p.2)
          reductions := s.reductions ++ [ReductionType.kFreeColSubstitution] }) ∧
    (∀ (impl : UndoImpl) (feastol : HDouble) (done : List StackItem)
       (cv rvls : Nonzeros) (d : FreeColSubstitution) (rest : List StackItem)
       (X Y : Nonzeros) (sol : HighsSolution) (b : HighsBasis),
      applyReduction impl feastol .kFreeColSubstitution
          ⟨⟨done ++ .nonzeros cv :: .nonzeros rvls :: .freeColSub d :: rest,
            done.length⟩, X, Y, sol, b⟩ =
        some ⟨⟨done ++ .nonzeros cv :: .nonzeros rvls :: .freeColSub d :: rest,
               done.length + 3⟩, rvls, cv,
              (impl.freeColSub d rvls cv sol b).1,
              (impl.freeColSub d rvls cv sol b).2⟩) ∧
    (∀ (s : HighsPostsolveStack) (row colSubst col : Nat)
       (coefSubst coef rhs substLower substUpper oldLower oldUpper newLower
         newUpper substCost : HDouble) (colVec : Nonzeros),
      s.doubletonEquation row colSubst col coefSubst coef rhs substLower
          substUpper oldLower oldUpper newLower newUpper substCost colVec =
        { s with
          reductionValues :=
            ⟨.nonzeros (colVec.map fun p => (s.origRowIndex.getD p.1 0, p.2)) ::
             .doubletonEq ⟨coef, coefSubst, rhs, substLower, substUpper,
                           substCost, s.origRowIndex.getD row 0,
                           s.origColIndex.getD colSubst 0,
                           s.origColIndex.getD col 0,
                           HDouble.lt oldLower newLower,
                           HDouble.gt oldUpper newUpper⟩ ::
             s.reductionValues.data,
             s.reductionValues.position⟩
          colValues := colVec.map fun p => (s.origRowIndex.getD p.1 0, p.2)
          reductions := s.reductions ++ [ReductionType.kDoubletonEquation] }) ∧
    (∀ (impl : UndoImpl) (feastol : HDouble) (done : List StackItem)
       (cv : Nonzeros) (d : DoubletonEquation) (rest : List StackItem)
       (X Y : Nonzeros) (sol : HighsSolution) (b : HighsBasis),
      applyReduction impl feastol .kDoubletonEquation
          ⟨⟨done ++ .nonzeros cv :: .doubletonEq d :: rest, done.length⟩,
           X, Y, sol, b⟩ =
        some ⟨⟨done ++ .nonzeros cv :: .doubletonEq d :: rest,
               done.length + 2⟩, X, cv, (impl.doubletonEq d cv sol b).1,
              (impl.doubletonEq d cv sol b).2⟩) ∧
    (∀ (s : HighsPostsolveStack) (col : Nat) (fixValue colCost : HDouble)
       (colVec : Nonzeros),
      (s.fixedColAtLower col fixValue colCost colVec).map
          (fun s1 => s1.reductionValues.data) =
        if fixValue.isfinite then
          some (.nonzeros (colVec.map fun p => (s.origRowIndex.getD p.1 0, p.2)) ::
                .fixedC ⟨fixValue, colCost, s.origColIndex.getD col 0,
                         HighsBasisStatus.LOWER⟩ ::
                s.reductionValues.data)
        else none) ∧
    (∀ (s : HighsPostsolveStack) (col : Nat) (fixValue colCost : HDouble)
       (colVec : Nonzeros),
      (s.fixedColAtUpper col fixValue colCost colVec).map
          (fun s1 => s1.reductionValues.data) =
        if fixValue.isfinite then
          some (.nonzeros (colVec.map fun p => (s.origRowIndex.getD p.1 0, p.2)) ::
                .fixedC ⟨fixValue, colCost, s.origColIndex.getD col 0,
                         HighsBasisStatus.UPPER⟩ ::
                s.reductionValues.data)
        else none) ∧
    (∀ (s : HighsPostsolveStack) (col : Nat) (fixValue colCost : HDouble)
       (colVec : Nonzeros),
      (s.removedFixedCol col fixValue colCost colVec).map
          (fun s1 => s1.reductionValues.data) =
        if fixValue.isfinite then
          some (.nonzeros (colVec.map fun p => (s.origRowIndex.getD p.1 0, p.2)) ::
                .fixedC ⟨fixValue, colCost, s.origColIndex.getD col 0,
                         HighsBasisStatus.NONBASIC⟩ ::
                s.reductionValues.data)
        else none) ∧
    (∀ (impl : UndoImpl) (feastol : HDouble) (done : List StackItem)
       (cv : Nonzeros) (d : FixedCol) (rest : List StackItem)
       (X Y : Nonzeros) (sol : HighsSolution) (b : HighsBasis),
      applyReduction impl feastol .kFixedCol
          ⟨⟨done ++ .nonzeros cv :: .fixedC d :: rest, done.length⟩,
           X, Y, sol, b⟩ =
        some ⟨⟨done ++ .nonzeros cv :: .fixedC d :: rest, done.length + 2⟩,
              X, cv, (impl.fixedC d cv sol b).1, (impl.fixedC d cv sol b).2⟩) ∧
    (∀ (s : HighsPostsolveStack) (row : Nat) (rowVec : Nonzeros)
       (side : HDouble) (rowType : RowType),
      s.forcingRow row rowVec side rowType =
        { s with
          reductionValues :=
            ⟨.nonzeros (rowVec.map fun p => (s.origColIndex.getD p.1 0, p.2)) ::
             .forcingR ⟨side, s.origRowIndex.getD row 0, rowType⟩ ::
             s.reductionValues.data,
             s.reductionValues.position⟩
          rowValues := rowVec.map fun p => (s.origColIndex.getD p.1 0, p.2)
          reductions := s.reductions ++ [ReductionType.kForcingRow] }) ∧
    (∀ (impl : UndoImpl) (feastol : HDouble) (done : List StackItem)
       (rvls : Nonzeros) (d : ForcingRow) (rest : List StackItem)
       (X Y : Nonzeros) (sol : HighsSolution) (b : HighsBasis),
      applyReduction impl feastol .kForcingRow
          ⟨⟨done ++ .nonzeros rvls :: .forcingR d :: rest, done.length⟩,
           X, Y, sol, b⟩ =
        some ⟨⟨done ++ .nonzeros rvls :: .forcingR d :: rest,
               done.length + 2⟩, rvls, Y, (impl.forcingR d rvls sol b).1,
              (impl.forcingR d rvls sol b).2⟩) ∧
    (∀ (s : HighsPostsolveStack) (row addedEqRow : Nat) (eqRowScale : HDouble),
      s.equalityRowAddition row addedEqRow eqRowScale =
        { s with
          reductionValues :=
            ⟨.eqRowAdd ⟨s.origRowIndex.getD row 0,
                        s.origRowIndex.getD addedEqRow 0, eqRowScale⟩ ::
             s.reductionValues.data,
             s.reductionValues.position⟩
          reductions := s.reductions ++ [ReductionType.kEqualityRowAddition] }) ∧
    (∀ (impl : UndoImpl) (feastol : HDouble) (done : List StackItem)
       (d : EqualityRowAddition) (rest : List StackItem) (X Y : Nonzeros)
       (sol : HighsSolution) (b : HighsBasis),
      applyReduction impl feastol .kEqualityRowAddition
          ⟨⟨done ++ .eqRowAdd d :: rest, done.length⟩, X, Y, sol, b⟩ =
        some ⟨⟨done ++ .eqRowAdd d :: rest, done.length + 1⟩, X, Y,
              (impl.eqRowAdd d sol b).1, (impl.eqRowAdd d sol b).2⟩) ∧
    (∀ (s : HighsPostsolveStack) (row col : Nat) (coef : HDouble)
       (tightenedColLower tightenedColUpper : Bool),
      s.singletonRow row col coef tightenedColLower tightenedColUpper =
        { s with
          reductionValues :=
            ⟨.singletonR ⟨coef, s.origRowIndex.getD row 0,
                          s.origColIndex.getD col 0, tightenedColLower,
                          tightenedColUpper⟩ ::
             s.reductionValues.data,
             s.reductionValues.position⟩
          reductions := s.reductions ++ [ReductionType.kSingletonRow] }) ∧
    (∀ (impl : UndoImpl) (feastol : HDouble) (done : List StackItem)
       (d : SingletonRow) (rest : List StackItem) (X Y : Nonzeros)
       (sol : HighsSolution) (b : HighsBasis),
      applyReduction impl feastol .kSingletonRow
          ⟨⟨done ++ .singletonR d :: rest, done.length⟩, X, Y, sol, b⟩ =
        some ⟨⟨done ++ .singletonR d :: rest, done.length + 1⟩, X, Y,
              (impl.singletonR d sol b).1, (impl.singletonR d sol b).2⟩) ∧
    (∀ (s : HighsPostsolveStack) (row : Nat),
      s.redundantRow row =
        { s with
          reductionValues :=
            ⟨.redundantR ⟨row⟩ :: s.reductionValues.data,
             s.reductionValues.position⟩
          reductions := s.reductions ++ [ReductionType.kRedundantRow] }) ∧
    (∀ (impl : UndoImpl) (feastol : HDouble) (done : List StackItem)
       (d : RedundantRow) (rest : List StackItem) (X Y : Nonzeros)
       (sol : HighsSolution) (b : HighsBasis),
      applyReduction impl feastol .kRedundantRow
          ⟨⟨done ++ .redundantR d :: rest, done.length⟩, X, Y, sol, b⟩ =
        some ⟨⟨done ++ .redundantR d :: rest, done.length + 1⟩, X, Y,
              (impl.redundantR d sol b).1, (impl.redundantR d sol b).2⟩) ∧
    (∀ (s : HighsPostsolveStack) (row : Nat)
       (rowUpperTightened rowLowerTightened : Bool) (dRow : Nat)
       (dScale : HDouble),
      s.duplicateRow row rowUpperTightened rowLowerTightened dRow dScale =
        { s with
          reductionValues :=
            ⟨.duplicateR ⟨dScale, s.origRowIndex.getD dRow 0,
                          s.origRowIndex.getD row 0, rowLowerTightened,
                          rowUpperTightened⟩ ::
             s.reductionValues.data,
             s.reductionValues.position⟩
          reductions := s.reductions ++ [ReductionType.kDuplicateRow] }) ∧
    (∀ (impl : UndoImpl) (feastol : HDouble) (done : List StackItem)
       (d : DuplicateRow) (rest : List StackItem) (X Y : Nonzeros)
       (sol : HighsSolution) (b : HighsBasis),
      applyReduction impl feastol .kDuplicateRow
          ⟨⟨done ++ .duplicateR d :: rest, done.length⟩, X, Y, sol, b⟩ =
        some ⟨⟨done ++ .duplicateR d :: rest, done.length + 1⟩, X, Y,
              (impl.duplicateR d sol b).1, (impl.duplicateR d sol b).2⟩) ∧
    (∀ (s : HighsPostsolveStack)
       (colScale colLower colUpper dcLower dcUpper : HDouble)
       (col duplicateCol : Nat) (colIntegral duplicateColIntegral : Bool),
      s.duplicateColumn colScale colLower colUpper dcLower dcUpper col
          duplicateCol colIntegral duplicateColIntegral =
        { s with
          reductionValues :=
            ⟨.duplicateC ⟨colScale, colLower, colUpper, dcLower, dcUpper,
                          s.origColIndex.getD col 0,
                          s.origColIndex.getD duplicateCol 0, colIntegral,
                          duplicateColIntegral⟩ ::
             s.reductionValues.data,
             s.reductionValues.position⟩
          reductions := s.reductions ++ [ReductionType.kDuplicateColumn] }) ∧
    (∀ (impl : UndoImpl) (feastol : HDouble) (done : List StackItem)
       (d : DuplicateColumn) (rest : List StackItem) (X Y : Nonzeros)
       (sol : HighsSolution) (b : HighsBasis),
      applyReduction impl feastol .kDuplicateColumn
          ⟨⟨done ++ .duplicateC d :: rest, done.length⟩, X, Y, sol, b⟩ =
        some ⟨⟨done ++ .duplicateC d :: rest, done.length + 1⟩, X, Y,
              (impl.duplicateC d sol b feastol).1,
              (impl.duplicateC d sol b feastol).2⟩) := by
  refine ⟨fun s row col rhs colCost rowType rowVec colVec => rfl,
    applyReduction_freeColSub_pops,
    fun s row colSubst col coefSubst coef rhs sL sU oL oU nL nU sC colVec => rfl,
    applyReduction_doubletonEq_pops,
    fun s col fixValue colCost colVec => ?hfl,
    fun s col fixValue colCost colVec => ?hfu,
    fun s col fixValue colCost colVec => ?hfn,
    applyReduction_fixedCol_pops,
    fun s row rowVec side rowType => rfl,
    applyReduction_forcingRow_pops,
    fun s row addedEqRow eqRowScale => rfl,
    applyReduction_eqRowAdd_pops,
    fun s row col coef tcl tcu => rfl,
    applyReduction_singletonRow_pops,
    fun s row => rfl,
    applyReduction_redundantRow_pops,
    fun s row rut rlt dRow dScale => rfl,
    applyReduction_duplicateRow_pops,
    fun s cS cL cU dcL dcU col dCol cI dcI => rfl,
    applyReduction_duplicateColumn_pops⟩
  · unfold HighsPostsolveStack.fixedColAtLower
    cases fixValue.isfinite <;> rfl
  · unfold HighsPostsolveStack.fixedColAtUpper
    cases fixValue.isfinite <;> rfl
  · unfold HighsPostsolveStack.removedFixedCol
    cases fixValue.isfinite <;> rfl

/-- C2: every recording operation translates the reduced-space row and column
indices it receives into original-space indices through
`origRowIndex`/`origColIndex` before storing them — both in the descriptor
fields (read off the stored stack items below) and in the side payloads
(whose entries map each nonzero index through the respective map) — with the
single exception of `redundantRow`, which stores the passed row index
unchanged in the descriptor. -/
theorem recorders_translate_indices :
    (∀ (s : HighsPostsolveStack) (row col : Nat) (rhs colCost : HDouble)
       (rowType : RowType) (rowVec colVec : Nonzeros),
      (s.freeColSubstitution row col rhs colCost rowType rowVec
          colVec).reductionValues.data.get? 2 =
        some (.freeColSub ⟨rhs, colCost, s.origRowIndex.getD row 0,
                           s.origColIndex.getD col 0, rowType⟩) ∧
      (s.freeColSubstitution row col rhs colCost rowType rowVec
          colVec).reductionValues.data.get? 1 =
        some (.nonzeros (rowVec.map fun p => (s.origColIndex.getD p.1 0, p.2))) ∧
      (s.freeColSubstitution row col rhs colCost rowType rowVec
          colVec).reductionValues.data.get? 0 =
        some (.nonzeros (colVec.map fun p => (s.origRowIndex.getD p.1 0, p.2)))) ∧
    (∀ (s : HighsPostsolveStack) (row colSubst col : Nat)
       (coefSubst coef rhs substLower substUpper oldLower oldUpper newLower
         newUpper substCost : HDouble) (colVec : Nonzeros),
      (s.doubletonEquation row colSubst col coefSubst coef rhs substLower
          substUpper oldLower oldUpper newLower newUpper substCost
          colVec).reductionValues.data.get? 1 =
        some (.doubletonEq ⟨coef, coefSubst, rhs, substLower, substUpper,
                            substCost, s.origRowIndex.getD row 0,
                            s.origColIndex.getD colSubst 0,
                            s.origColIndex.getD col 0,
                            HDouble.lt oldLower newLower,
                            HDouble.gt oldUpper newUpper⟩) ∧
      (s.doubletonEquation row colSubst col coefSubst coef rhs substLower
          substUpper oldLower oldUpper newLower newUpper substCost
          colVec).reductionValues.data.get? 0 =
        some (.nonzeros (colVec.map fun p => (s.origRowIndex.getD p.1 0, p.2)))) ∧
    (∀ (s : HighsPostsolveStack) (row addedEqRow : Nat) (eqRowScale : HDouble),
      (s.equalityRowAddition row addedEqRow
          eqRowScale).reductionValues.data.get? 0 =
        some (.eqRowAdd ⟨s.origRowIndex.getD row 0,
                         s.origRowIndex.getD addedEqRow 0, eqRowScale⟩)) ∧
    (∀ (s : HighsPostsolveStack) (row col : Nat) (coef : HDouble)
       (tcl tcu : Bool),
      (s.singletonRow row col coef tcl tcu).reductionValues.data.get? 0 =
        some (.singletonR ⟨coef, s.origRowIndex.getD row 0,
                           s.origColIndex.getD col 0, tcl, tcu⟩)) ∧
    (∀ (s : HighsPostsolveStack) (col : Nat) (fixValue colCost : HDouble)
       (colVec : Nonzeros),
      (s.fixedColAtLower col fixValue colCost colVec).map
          (fun s1 => (s1.reductionValues.data.get? 1,
                      s1.reductionValues.data.get? 0)) =
        if fixValue.isfinite then
          some (some (.fixedC ⟨fixValue, colCost, s.origColIndex.getD col 0,
                               HighsBasisStatus.LOWER⟩),
                some (.nonzeros (colVec.map
                  fun p => (s.origRowIndex.getD p.1 0, p.2))))
        else none) ∧
    (∀ (s : HighsPostsolveStack) (col : Nat) (fixValue colCost : HDouble)
       (colVec : Nonzeros),
      (s.fixedColAtUpper col fixValue colCost colVec).map
          (fun s1 => (s1.reductionValues.data.get? 1,
                      s1.reductionValues.data.get? 0)) =
        if fixValue.isfinite then
          some (some (.fixedC ⟨fixValue, colCost, s.origColIndex.getD col 0,
                               HighsBasisStatus.UPPER⟩),
                some (.nonzeros (colVec.map
                  fun p => (s.origRowIndex.getD p.1 0, p.2))))
        else none) ∧
    (∀ (s : HighsPostsolveStack) (col : Nat) (fixValue colCost : HDouble)
       (colVec : Nonzeros),
      (s.removedFixedCol col fixValue colCost colVec).map
          (fun s1 => (s1.reductionValues.data.get? 1,
                      s1.reductionValues.data.get? 0)) =
        if fixValue.isfinite then
          some (some (.fixedC ⟨fixValue, colCost, s.origColIndex.getD col 0,
                               HighsBasisStatus.NONBASIC⟩),
                some (.nonzeros (colVec.map
                  fun p => (s.origRowIndex.getD p.1 0, p.2))))
        else none) ∧
    (∀ (s : HighsPostsolveStack) (row : Nat),
      (s.redundantRow row).reductionValues.data.get? 0 =
        some (.redundantR ⟨row⟩)) ∧
    (∀ (s : HighsPostsolveStack) (row : Nat) (rowVec : Nonzeros)
       (side : HDouble) (rowType : RowType),
      (s.forcingRow row rowVec side rowType).reductionValues.data.get? 1 =
        some (.forcingR ⟨side, s.origRowIndex.getD row 0, rowType⟩) ∧
      (s.forcingRow row rowVec side rowType).reductionValues.data.get? 0 =
        some (.nonzeros (rowVec.map fun p => (s.origColIndex.getD p.1 0, p.2)))) ∧
    (∀ (s : HighsPostsolveStack) (row : Nat) (rut rlt : Bool) (dRow : Nat)
       (dScale : HDouble),
      (s.duplicateRow row rut rlt dRow dScale).reductionValues.data.get? 0 =
        some (.duplicateR ⟨dScale, s.origRowIndex.getD dRow 0,
                           s.origRowIndex.getD row 0, rlt, rut⟩)) ∧
    (∀ (s : HighsPostsolveStack)
       (colScale colLower colUpper dcLower dcUpper : HDouble)
       (col duplicateCol : Nat) (cI dcI : Bool),
      (s.duplicateColumn colScale colLower colUpper dcLower dcUpper col
          duplicateCol cI dcI).reductionValues.data.get? 0 =
        some (.duplicateC ⟨colScale, colLower, colUpper, dcLower, dcUpper,
                           s.origColIndex.getD col 0,
                           s.origColIndex.getD duplicateCol 0, cI, dcI⟩)) := by
  refine ⟨fun s row col rhs colCost rowType rowVec colVec => ⟨rfl, rfl, rfl⟩,
    fun s row colSubst col cS c r sL sU oL oU nL nU sC colVec => ⟨rfl, rfl⟩,
    fun s row addedEqRow eqRowScale => rfl,
    fun s row col coef tcl tcu => rfl,
    fun s col fixValue colCost colVec => ?hfl,
    fun s col fixValue colCost colVec => ?hfu,
    fun s col fixValue colCost colVec => ?hfn,
    fun s row => rfl,
    fun s row rowVec side rowType => ⟨rfl, rfl⟩,
    fun s row rut rlt dRow dScale => rfl,
    fun s cS cL cU dcL dcU col dCol cI dcI => rfl⟩
  · unfold HighsPostsolveStack.fixedColAtLower
    cases fixValue.isfinite <;> rfl
  · unfold HighsPostsolveStack.fixedColAtUpper
    cases fixValue.isfinite <;> rfl
  · unfold HighsPostsolveStack.removedFixedCol
    cases fixValue.isfinite <;> rfl

/-- C8: the `duplicateRow` recorder, whose parameter list orders
`rowUpperTightened` before `rowLowerTightened`, stores
`origRowIndex[duplicateRow]` in the descriptor field named `duplicateRow`,
`origRowIndex[row]` in the field named `row`, and maps each tightened flag to
the same-named descriptor field (the pushed descriptor is written below with
named fields). -/
theorem duplicateRow_field_assignment (s : HighsPostsolveStack) (row : Nat)
    (rowUpperTightened rowLowerTightened : Bool) (dRow : Nat)
    (dScale : HDouble) :
    (s.duplicateRow row rowUpperTightened rowLowerTightened dRow
        dScale).reductionValues.data.head? =
      some (StackItem.duplicateR
        { duplicateRowScale := dScale
          duplicateRow := s.origRowIndex.getD dRow 0
          row := s.origRowIndex.getD row 0
          rowLowerTightened := rowLowerTightened
          rowUpperTightened := rowUpperTightened }) ∧
    (s.duplicateRow row rowUpperTightened rowLowerTightened dRow
        dScale).reductionValues.data.tail = s.reductionValues.data :=
  ⟨rfl, rfl⟩

/-- C9: all three FixedCol recorders assert that `fixValue` is finite — a
non-finite `fixValue` is an assertion failure (`none`), and a finite one
records the reduction, pushing a `FixedCol` descriptor whose `fixType` is
`LOWER`, `UPPER` or `NONBASIC` respectively, followed by the column
nonzeros. -/
theorem fixedCol_asserts_finite (s : HighsPostsolveStack) (col : Nat)
    (fixValue colCost : HDouble) (colVec : Nonzeros) :
    s.fixedColAtLower col fixValue colCost colVec =
      (if fixValue.isfinite then
        some { s with
          reductionValues :=
            ⟨.nonzeros (colVec.map fun p => (s.origRowIndex.getD p.1 0, p.2)) ::
             .fixedC ⟨fixValue, colCost, s.origColIndex.getD col 0,
                      HighsBasisStatus.LOWER⟩ ::
             s.reductionValues.data,
             s.reductionValues.position⟩
          colValues := colVec.map fun p => (s.origRowIndex.getD p.1 0, p.2)
          reductions := s.reductions ++ [ReductionType.kFixedCol] }
      else none) ∧
    s.fixedColAtUpper col fixValue colCost colVec =
      (if fixValue.isfinite then
        some { s with
          reductionValues :=
            ⟨.nonzeros (colVec.map fun p => (s.origRowIndex.getD p.1 0, p.2)) ::
             .fixedC ⟨fixValue, colCost, s.origColIndex.getD col 0,
                      HighsBasisStatus.UPPER⟩ ::
             s.reductionValues.data,
             s.reductionValues.position⟩
          colValues := colVec.map fun p => (s.origRowIndex.getD p.1 0, p.2)
          reductions := s.reductions ++ [ReductionType.kFixedCol] }
      else none) ∧
    s.removedFixedCol col fixValue colCost colVec =
      (if fixValue.isfinite then
        some { s with
          reductionValues :=
            ⟨.nonzeros (colVec.map fun p => (s.origRowIndex.getD p.1 0, p.2)) ::
             .fixedC ⟨fixValue, colCost, s.origColIndex.getD col 0,
                      HighsBasisStatus.NONBASIC⟩ ::
             s.reductionValues.data,
             s.reductionValues.position⟩
          colValues := colVec.map fun p => (s.origRowIndex.getD p.1 0, p.2)
          reductions := s.reductions ++ [ReductionType.kFixedCol] }
      else none) :=
  ⟨rfl, rfl, rfl⟩

end HighsPostsolve
